import Mathlib

/-!
Shallow embedding of `primitives/runtime/src/traits.rs`: the zero-padding
codec input adapters (`TrailingZeroInput`, `AppendZerosInput`), the
sub-account derivation of the `AccountIdConversion` blanket impl
(`into_sub_account` / `try_from_sub_account`), the `SignedExtension`
pipeline (trait defaults, the unit impl, tuple composition), and the
recoverable ECDSA `Verify` impl.

Bytes are modelled as `Nat` (each byte `< 256` where it matters); the
external SCALE codec is modelled by explicit little-endian encoders and by
decoders that pull bytes from an abstract `codec::Input` capability, as the
source's `Encode`/`Decode` bounds do.  External collaborator types that the
source only consumes opaquely (`ValidTransaction`, `TransactionValidityError`,
the secp256k1 recovery primitive) are type and function parameters.
-/

/-- Model of the external `codec::Input` capability: a stateful byte reader
with an optional known remaining length.  `read s n` delivers exactly `n`
bytes (the buffer's length) or fails, returning the advanced state. -/
class CodecInput (σ : Type) where
  remaining_len : σ → Except Unit (Option Nat)
  read : σ → Nat → Except Unit (List Nat × σ)

/-- Default `read_byte` of `codec::Input`: read into a fresh 1-byte buffer
and return its first byte. -/
def read_byte {σ : Type} [CodecInput σ] (s : σ) : Except Unit (Nat × σ) :=
  match CodecInput.read s 1 with
  | .error e => .error e
  | .ok (bs, s') => .ok (bs.headD 0, s')

/-- Model of the `codec::Input` impl for `&[u8]`: remaining length is known,
and a read larger than the remaining slice fails. -/
structure SliceInput where
  data : List Nat
deriving DecidableEq

instance : CodecInput SliceInput where
  remaining_len s := .ok (some s.data.length)
  read s n :=
    if n ≤ s.data.length then
      .ok (s.data.take n, ⟨s.data.drop n⟩)
    else
      .error ()

/-- Input that adds an infinite number of zeros after the wrapped byte slice
(`TrailingZeroInput` in the source): a read copies `min n len` bytes from the
slice, zero-fills the rest of the buffer, and advances the slice. -/
structure TrailingZeroInput where
  data : List Nat
deriving DecidableEq

instance : CodecInput TrailingZeroInput where
  remaining_len _ := .ok none
  read s n :=
    let len_from_inner := min n s.data.length
    .ok (s.data.take len_from_inner ++ List.replicate (n - len_from_inner) 0,
      ⟨s.data.drop len_from_inner⟩)

/-- Input that adds an infinite number of zeros after an arbitrary wrapped
input (`AppendZerosInput` in the source). -/
structure AppendZerosInput (σ : Type) where
  inner : σ

/-- The byte-by-byte fill loop of `AppendZerosInput::read`'s unknown-length
branch: read single bytes from the wrapped input until it fails or the
buffer is full. -/
def readByteLoop {σ : Type} [CodecInput σ] : σ → Nat → List Nat × σ
  | s, 0 => ([], s)
  | s, n + 1 =>
    match read_byte s with
    | .error _ => ([], s)
    | .ok (b, s') =>
      let (bs, s'') := readByteLoop s' n
      (b :: bs, s'')

/-- The body of `AppendZerosInput::read`: when the wrapped input's length is
known, read as much as it holds and zero-fill the rest of the buffer; when it
is unknown, read byte-by-byte until the wrapped input fails, then zero-fill. -/
def AppendZerosInput.read {σ : Type} [CodecInput σ] (s : AppendZerosInput σ)
    (n : Nat) : Except Unit (List Nat × AppendZerosInput σ) :=
  match CodecInput.remaining_len s.inner with
  | .error e => .error e
  | .ok (some r) =>
    let readable := min n r
    match CodecInput.read s.inner readable with
    | .error e => .error e
    | .ok (bs, s') => .ok (bs ++ List.replicate (n - readable) 0, ⟨s'⟩)
  | .ok none =>
    let (bs, s') := readByteLoop s.inner n
    .ok (bs ++ List.replicate (n - bs.length) 0, ⟨s'⟩)

instance {σ : Type} [CodecInput σ] : CodecInput (AppendZerosInput σ) where
  remaining_len _ := .ok none
  read := AppendZerosInput.read

/-- A finite byte source whose remaining length is reported as unknown: a
collaborator exercising the byte-by-byte branch of `AppendZerosInput::read`
(the source allows any bounded-or-unbounded input there). -/
structure UnknownLenSource where
  data : List Nat
deriving DecidableEq

instance : CodecInput UnknownLenSource where
  remaining_len _ := .ok none
  read s n :=
    if n ≤ s.data.length then
      .ok (s.data.take n, ⟨s.data.drop n⟩)
    else
      .error ()

/-- Model of a SCALE `Decode` impl: a decoder generic over the input
capability, returning the value and the advanced input on success. -/
structure Decoder (α : Type) : Type 1 where
  run : {σ : Type} → [_inst : CodecInput σ] → σ → Option (α × σ)

/-- Little-endian value of a byte list. -/
def natFromLeBytes (bs : List Nat) : Nat :=
  bs.foldr (fun b acc => b + 256 * acc) 0

/-- The `w`-byte little-endian encoding of `n` (SCALE fixed-width unsigned
integer encoding). -/
def natToLeBytes : Nat → Nat → List Nat
  | 0, _ => []
  | w + 1, n => n % 256 :: natToLeBytes w (n / 256)

/-- SCALE decoder of a `w`-byte little-endian unsigned integer: read exactly
`w` bytes and assemble them. -/
def uintDecoder (w : Nat) : Decoder Nat where
  run s :=
    match CodecInput.read s w with
    | .error _ => none
    | .ok (bs, s') => some (natFromLeBytes bs, s')

/-- SCALE decoder of the unit type: consumes nothing, always succeeds. -/
def unitDecoder : Decoder Unit where
  run s := some ((), s)

/-- SCALE decoder of a pair: decode the components in order. -/
def Decoder.pair {α β : Type} (d1 : Decoder α) (d2 : Decoder β) :
    Decoder (α × β) where
  run s :=
    match d1.run s with
    | none => none
    | some (a, s') =>
      match d2.run s' with
      | none => none
      | some (b, s'') => some ((a, b), s'')

/-- Forward sub-account derivation (`into_sub_account` of the blanket
`AccountIdConversion` impl): encode the tuple `(TYPE_ID, self, sub)` —
a concatenation under SCALE — decode those bytes into the target type
through `TrailingZeroInput`, and fall back to the target's default value
if even the zero-filled decode fails. -/
def into_sub_account {T Id S : Type} (tag : List Nat) (encId : Id → List Nat)
    (encSub : S → List Nat) (decT : Decoder T) (dfltT : T)
    (x : Id) (sub : S) : T :=
  match decT.run (TrailingZeroInput.mk (tag ++ encId x ++ encSub sub)) with
  | some (t, _) => t
  | none => dfltT

/-- Reverse sub-account derivation (`try_from_sub_account`): encode the
candidate identifier; taking `d[0..4]` panics when the encoding is shorter
than 4 bytes (the `.error ()` branch); otherwise reject unless the first 4
bytes equal the type tag, decode the remainder as a `(source, sub)` pair
from a plain slice cursor, and require every unconsumed cursor byte to be
zero. -/
def try_from_sub_account {T Id S : Type} (tag : List Nat)
    (encT : T → List Nat) (decPair : Decoder (Id × S)) (t : T) :
    Except Unit (Option (Id × S)) :=
  let d := encT t
  if d.length < 4 then .error ()
  else if d.take 4 ≠ tag then .ok none
  else
    match decPair.run (SliceInput.mk (d.drop 4)) with
    | none => .ok none
    | some (result, cursor) =>
      if cursor.data.all (fun y => y == 0) then .ok (some result)
      else .ok none

/-- TYPE_ID of the test type `U32Value`: `0xCAFEF00D` as little-endian bytes. -/
def tagU32Value : List Nat := [0x0d, 0xf0, 0xfe, 0xca]

/-- TYPE_ID of the test type `U16Value`: `0xF00DCAFE` as little-endian bytes. -/
def tagU16Value : List Nat := [0xfe, 0xca, 0x0d, 0xf0]

theorem natToLeBytes_succ (w n : Nat) :
    natToLeBytes (w + 1) n = n % 256 :: natToLeBytes w (n / 256) := rfl

theorem natFromLeBytes_cons (b : Nat) (bs : List Nat) :
    natFromLeBytes (b :: bs) = b + 256 * natFromLeBytes bs := rfl

theorem natToLeBytes_natFromLeBytes (bs : List Nat)
    (h : ∀ b ∈ bs, b < 256) :
    natToLeBytes bs.length (natFromLeBytes bs) = bs := by
  induction bs with
  | nil => rfl
  | cons b bs ih =>
    have hb : b < 256 := h b (List.mem_cons_self b bs)
    have hrest : ∀ y ∈ bs, y < 256 := fun y hy => h y (List.mem_cons_of_mem _ hy)
    rw [List.length_cons, natToLeBytes_succ, natFromLeBytes_cons]
    have h1 : (b + 256 * natFromLeBytes bs) % 256 = b := by omega
    have h2 : (b + 256 * natFromLeBytes bs) / 256 = natFromLeBytes bs := by omega
    rw [h1, h2, ih hrest]

theorem sliceInput_read (data : List Nat) (n : Nat) :
    CodecInput.read (SliceInput.mk data) n =
      if n ≤ data.length then
        .ok (data.take n, SliceInput.mk (data.drop n))
      else .error () := rfl

theorem trailingZeroInput_read (data : List Nat) (n : Nat) :
    CodecInput.read (TrailingZeroInput.mk data) n =
      .ok (data.take (min n data.length) ++
            List.replicate (n - min n data.length) 0,
        TrailingZeroInput.mk (data.drop (min n data.length))) := rfl

/-- Claim C9: with the TypeTag `0xCAFEF00D` (LE bytes `[0d, f0, fe, ca]`), a
u32 source value `0xDEADBEEF` and no sub-value, forward derivation into a
u64 identifier yields exactly `0xDEADBEEF_CAFEF00D` (read little-endian);
reverse derivation recovers `0xDEADBEEF`; and for the narrower u16 source
(tag `0xF00DCAFE`, value `0xC0DA`), corrupting either of the identifier's
top zero-padding bytes to a nonzero value makes reverse derivation fail. -/
theorem C9_end_to_end :
    (into_sub_account tagU32Value (natToLeBytes 4) (fun _ : Unit => [])
        (uintDecoder 8) 0 0xdeadbeef () = 0xdeadbeefcafef00d)
    ∧ (try_from_sub_account tagU32Value (natToLeBytes 8)
        ((uintDecoder 4).pair unitDecoder) 0xdeadbeefcafef00d =
        .ok (some (0xdeadbeef, ())))
    ∧ (∀ b6 b7 : Nat, b6 < 256 → b7 < 256 → b6 ≠ 0 ∨ b7 ≠ 0 →
        try_from_sub_account tagU16Value (natToLeBytes 8)
          ((uintDecoder 2).pair unitDecoder)
          (0xc0daf00dcafe + b6 * 0x1000000000000 + b7 * 0x100000000000000) =
          .ok none) := by
  refine ⟨by decide, rfl, ?_⟩
  intro b6 b7 h6 h7 hne
  have hval : (0xc0daf00dcafe + b6 * 0x1000000000000 + b7 * 0x100000000000000)
      = natFromLeBytes [0xfe, 0xca, 0x0d, 0xf0, 0xda, 0xc0, b6, b7] := by
    simp [natFromLeBytes]
    omega
  have hmem : ∀ y ∈ ([0xfe, 0xca, 0x0d, 0xf0, 0xda, 0xc0, b6, b7] : List Nat),
      y < 256 := by
    intro y hy
    simp only [List.mem_cons, List.not_mem_nil, or_false] at hy
    rcases hy with rfl | rfl | rfl | rfl | rfl | rfl | rfl | rfl <;> omega
  have hbytes : natToLeBytes 8
      (0xc0daf00dcafe + b6 * 0x1000000000000 + b7 * 0x100000000000000)
      = [0xfe, 0xca, 0x0d, 0xf0, 0xda, 0xc0, b6, b7] := by
    rw [hval]
    have := natToLeBytes_natFromLeBytes
      [0xfe, 0xca, 0x0d, 0xf0, 0xda, 0xc0, b6, b7] hmem
    simpa using this
  have hcond : (([b6, b7] : List Nat).all (fun y => y == 0)) = false := by
    have : ¬ (b6 = 0 ∧ b7 = 0) := by rcases hne with h | h <;> omega
    simp only [List.all_cons, List.all_nil, Bool.and_true]
    rcases Nat.eq_zero_or_pos b6 with hb6 | hb6
    · subst hb6
      simp only [Nat.zero_lt_succ, beq_self_eq_true, Bool.true_and]
      have : b7 ≠ 0 := by omega
      simp [this]
    · have : b6 ≠ 0 := by omega
      simp [this]
  simp only [try_from_sub_account, hbytes, Decoder.pair, uintDecoder,
    unitDecoder, sliceInput_read]
  norm_num [tagU16Value, List.take, List.drop, natFromLeBytes, hcond]

/-- Witness for C9: corrupting the second-highest identifier byte to 1
(identifier `0x0001_c0da_f00dcafe`) makes reverse derivation return nothing. -/
theorem C9_end_to_end_witness :
    try_from_sub_account tagU16Value (natToLeBytes 8)
      ((uintDecoder 2).pair unitDecoder)
      (0xc0daf00dcafe + 1 * 0x1000000000000 + 0 * 0x100000000000000) =
      .ok none :=
  C9_end_to_end.2.2 1 0 (by decide) (by decide) (Or.inl (by decide))

theorem uintDecoder_slice (w : Nat) (bs rest : List Nat)
    (hw : bs.length = w) :
    (uintDecoder w).run (SliceInput.mk (bs ++ rest)) =
      some (natFromLeBytes bs, SliceInput.mk rest) := by
  subst hw
  simp [uintDecoder, sliceInput_read, List.take_left, List.drop_left]

/-- Claim C1: for every TypeTag-bearing source type and identifier type with
deterministic encoding, the reverse derivation of a forward-derived
sub-account identifier recovers exactly the source value and sub-value,
provided the combined encoding (tag ++ source ++ sub) decodes into the
identifier type through the zero-padding adapter and the identifier's own
encoding reproduces it up to trailing zeros (the fit precondition). -/
theorem C1_round_trip {T Id S : Type} (tag : List Nat)
    (encId : Id → List Nat) (encSub : S → List Nat)
    (decId : Decoder Id) (decSub : Decoder S)
    (encT : T → List Nat) (decT : Decoder T) (dfltT : T)
    (x : Id) (sub : S) (t : T) (s0 : TrailingZeroInput) (k : Nat)
    (htag : tag.length = 4)
    (hId : ∀ rest, decId.run (SliceInput.mk (encId x ++ rest)) =
      some (x, SliceInput.mk rest))
    (hSub : ∀ rest, decSub.run (SliceInput.mk (encSub sub ++ rest)) =
      some (sub, SliceInput.mk rest))
    (hdec : decT.run (TrailingZeroInput.mk (tag ++ encId x ++ encSub sub)) =
      some (t, s0))
    (henc : encT t = tag ++ encId x ++ encSub sub ++ List.replicate k 0) :
    try_from_sub_account tag encT (decId.pair decSub)
      (into_sub_account tag encId encSub decT dfltT x sub) =
      .ok (some (x, sub)) := by
  have hinto : into_sub_account tag encId encSub decT dfltT x sub = t := by
    simp only [into_sub_account, hdec]
  rw [hinto]
  have hd : encT t =
      tag ++ (encId x ++ (encSub sub ++ List.replicate k 0)) := by
    rw [henc]; simp [List.append_assoc]
  have hlen : ¬ (encT t).length < 4 := by
    rw [hd]; simp [htag]
  have htake : (encT t).take 4 = tag := by
    rw [hd, ← htag, List.take_left]
  have hdrop : (encT t).drop 4 =
      encId x ++ (encSub sub ++ List.replicate k 0) := by
    rw [hd, ← htag, List.drop_left]
  simp only [try_from_sub_account, hlen, if_false, htake, ne_eq,
    not_true_eq_false, hdrop, Decoder.pair, hId, hSub]
  simp [List.all_eq_true, List.eq_of_mem_replicate]

/-- Witness for C1: the `0xDEADBEEF` u32 value, unit sub-value and u64
identifier type satisfy the fit precondition, and the round trip recovers
the value. -/
theorem C1_round_trip_witness :
    try_from_sub_account tagU32Value (natToLeBytes 8)
      ((uintDecoder 4).pair unitDecoder)
      (into_sub_account tagU32Value (natToLeBytes 4) (fun _ : Unit => [])
        (uintDecoder 8) 0 0xdeadbeef ()) = .ok (some (0xdeadbeef, ())) :=
  C1_round_trip tagU32Value (natToLeBytes 4) (fun _ : Unit => [])
    (uintDecoder 4) unitDecoder (natToLeBytes 8) (uintDecoder 8) 0
    0xdeadbeef () 0xdeadbeefcafef00d (TrailingZeroInput.mk []) 0
    (by decide)
    (fun rest => by
      have h := uintDecoder_slice 4 (natToLeBytes 4 0xdeadbeef) rest
        (by decide)
      have h2 : natFromLeBytes (natToLeBytes 4 0xdeadbeef) = 0xdeadbeef := by
        decide
      exact h2 ▸ h)
    (fun rest => by simp [unitDecoder])
    (by decide)
    (by decide)

/-- Claim C5: the forward derivation is infallible, for every source value
and sub-value: either the zero-padded decode of the encoded tuple succeeds
and its result is returned, or the decode fails and the target type's
default value is returned — never an error. -/
theorem C5_forward_infallible {T Id S : Type} (tag : List Nat)
    (encId : Id → List Nat) (encSub : S → List Nat)
    (decT : Decoder T) (dfltT : T) (x : Id) (sub : S) :
    (∃ t s', decT.run (TrailingZeroInput.mk (tag ++ encId x ++ encSub sub)) =
        some (t, s') ∧
      into_sub_account tag encId encSub decT dfltT x sub = t)
    ∨ (decT.run (TrailingZeroInput.mk (tag ++ encId x ++ encSub sub)) = none
        ∧ into_sub_account tag encId encSub decT dfltT x sub = dfltT) := by
  cases h : decT.run (TrailingZeroInput.mk (tag ++ encId x ++ encSub sub)) with
  | none =>
    refine Or.inr ⟨rfl, ?_⟩
    unfold into_sub_account
    rw [h]
  | some ts =>
    obtain ⟨t, s'⟩ := ts
    refine Or.inl ⟨t, s', rfl, ?_⟩
    unfold into_sub_account
    rw [h]

/-- Claim C6: the reverse derivation returns `Some` exactly when the first
4 encoded bytes equal the tag, the remainder decodes as a (source, sub)
pair, and every unconsumed byte is zero; and any nonzero trailing byte
after a cleanly decoded pair makes it return `None`. -/
theorem C6_reverse_characterization {T Id S : Type} (tag : List Nat)
    (encT : T → List Nat) (decPair : Decoder (Id × S))
    (htag : tag.length = 4) :
    (∀ (t : T) (r : Id × S),
      try_from_sub_account tag encT decPair t = .ok (some r) ↔
        ((encT t).take 4 = tag ∧
          ∃ cursor, decPair.run (SliceInput.mk ((encT t).drop 4)) =
              some (r, cursor) ∧
            cursor.data.all (fun y => y == 0) = true))
    ∧ (∀ (t : T) (pre rest : List Nat) (r : Id × S),
        encT t = tag ++ pre ++ rest →
        (∀ rest2, decPair.run (SliceInput.mk (pre ++ rest2)) =
          some (r, SliceInput.mk rest2)) →
        rest.all (fun y => y == 0) = false →
        try_from_sub_account tag encT decPair t = .ok none) := by
  constructor
  · intro t r
    constructor
    · intro h
      by_cases hl : (encT t).length < 4
      · simp [try_from_sub_account, hl] at h
      · by_cases htk : (encT t).take 4 = tag
        · refine ⟨htk, ?_⟩
          rcases hm : decPair.run (SliceInput.mk ((encT t).drop 4)) with
            _ | ⟨res, cursor⟩
          · simp [try_from_sub_account, hl, htk, hm] at h
          · by_cases hz : cursor.data.all (fun y => y == 0) = true
            · simp only [try_from_sub_account, hl, if_false, htk, ne_eq,
                not_true_eq_false, hm, hz, if_true, Except.ok.injEq,
                Option.some.injEq] at h
              subst h
              exact ⟨cursor, rfl, hz⟩
            · simp [try_from_sub_account, hl, htk, hm, hz] at h
        · simp [try_from_sub_account, hl, htk] at h
    · rintro ⟨htk, cursor, hm, hz⟩
      have hl : ¬ (encT t).length < 4 := by
        have := congrArg List.length htk
        simp only [List.length_take, htag] at this
        omega
      simp [try_from_sub_account, hl, htk, hm, hz]
  · intro t pre rest r henc hdec hz
    have hd : encT t = tag ++ (pre ++ rest) := by
      rw [henc, List.append_assoc]
    have hl : ¬ (encT t).length < 4 := by
      rw [hd]; simp [htag]
    have htake : (encT t).take 4 = tag := by
      rw [hd, ← htag, List.take_left]
    have hdrop : (encT t).drop 4 = pre ++ rest := by
      rw [hd, ← htag, List.drop_left]
    simp [try_from_sub_account, hl, htake, hdrop, hdec rest, hz]

/-- Witness for C6: the identifier `0x0001_c0da_f00dcafe` (a validly
derived u16 identifier with one trailing zero byte set to 1) is rejected
by reverse derivation. -/
theorem C6_reverse_characterization_witness :
    try_from_sub_account tagU16Value (natToLeBytes 8)
      ((uintDecoder 2).pair unitDecoder) 0x0001c0daf00dcafe = .ok none :=
  (C6_reverse_characterization tagU16Value (natToLeBytes 8)
    ((uintDecoder 2).pair unitDecoder) (by decide)).2
    0x0001c0daf00dcafe [0xda, 0xc0] [1, 0] (0xc0da, ())
    (by decide)
    (fun rest2 => by
      have h := uintDecoder_slice 2 [0xda, 0xc0] rest2 (by decide)
      have h2 : natFromLeBytes [0xda, 0xc0] = 0xc0da := by decide
      rw [h2] at h
      simp only [Decoder.pair, unitDecoder, h])
    (by decide)

/-- Claim C10: for every identifier whose encoding is at least 4 bytes the
reverse derivation is total (returns `Some` or `None`, never the panic
branch), while an identifier type whose encoding is shorter than 4 bytes
(here the unit type, whose SCALE encoding is empty) reaches the panic
branch of the guarded `d[0..4]` indexing. -/
theorem C10_totality :
    (∀ (T Id S : Type) (tag : List Nat) (encT : T → List Nat)
        (decPair : Decoder (Id × S)) (t : T),
        4 ≤ (encT t).length →
        ∃ o, try_from_sub_account tag encT decPair t = .ok o)
    ∧ try_from_sub_account (T := Unit) tagU32Value (fun _ => [])
        ((uintDecoder 4).pair unitDecoder) () = .error () := by
  constructor
  · intro T Id S tag encT decPair t hlen
    have hl : ¬ (encT t).length < 4 := by omega
    by_cases htk : (encT t).take 4 = tag
    · rcases hm : decPair.run (SliceInput.mk ((encT t).drop 4)) with
        _ | ⟨r, cursor⟩
      · exact ⟨none, by simp [try_from_sub_account, hl, htk, hm]⟩
      · by_cases hz : cursor.data.all (fun y => y == 0) = true
        · exact ⟨some r, by simp [try_from_sub_account, hl, htk, hm, hz]⟩
        · exact ⟨none, by simp [try_from_sub_account, hl, htk, hm, hz]⟩
    · exact ⟨none, by simp [try_from_sub_account, hl, htk]⟩
  · rfl

/-- Witness for C10: the u64 identifier 0 has an 8-byte encoding, so
reverse derivation returns without panicking. -/
theorem C10_totality_witness :
    ∃ o, try_from_sub_account tagU32Value (natToLeBytes 8)
      ((uintDecoder 4).pair unitDecoder) 0 = .ok o :=
  C10_totality.1 Nat Nat Unit tagU32Value (natToLeBytes 8)
    ((uintDecoder 4).pair unitDecoder) 0 (by decide)

/-- Bytes delivered by reading `n` positions from a zero-padded finite byte
slice: the slice's bytes (up to `n` of them) followed by zeros for every
position past the slice's end. -/
def padRead (data : List Nat) (n : Nat) : List Nat :=
  data.take n ++ List.replicate (n - data.length) 0

/-- Run a sequence of read calls of the given sizes against an input,
concatenating the delivered bytes; fails when any single read fails. -/
def runReads {σ : Type} [CodecInput σ] (s : σ) :
    List Nat → Option (List Nat × σ)
  | [] => some ([], s)
  | n :: ns =>
    match CodecInput.read s n with
    | .error _ => none
    | .ok (bs, s') =>
      match runReads s' ns with
      | none => none
      | some (rest, sf) => some (bs ++ rest, sf)

theorem take_min_eq_take (data : List Nat) (n : Nat) :
    data.take (min n data.length) = data.take n := by
  rcases Nat.le_total n data.length with h | h
  · rw [Nat.min_eq_left h]
  · rw [Nat.min_eq_right h, List.take_length, List.take_of_length_le h]

theorem drop_min_eq_drop (data : List Nat) (n : Nat) :
    data.drop (min n data.length) = data.drop n := by
  rcases Nat.le_total n data.length with h | h
  · rw [Nat.min_eq_left h]
  · rw [Nat.min_eq_right h, List.drop_length, List.drop_eq_nil_of_le h]

theorem trailingZero_read_padRead (data : List Nat) (n : Nat) :
    CodecInput.read (TrailingZeroInput.mk data) n =
      .ok (padRead data n, TrailingZeroInput.mk (data.drop n)) := by
  rw [trailingZeroInput_read, take_min_eq_take, drop_min_eq_drop]
  have h2 : n - min n data.length = n - data.length := by omega
  rw [h2]
  rfl

theorem padRead_add (data : List Nat) (a b : Nat) :
    padRead data a ++ padRead (data.drop a) b = padRead data (a + b) := by
  unfold padRead
  rcases Nat.le_total a data.length with h | h
  · have h1 : a - data.length = 0 := by omega
    have h2 : b - (data.drop a).length = a + b - data.length := by
      rw [List.length_drop]; omega
    rw [h1, h2, List.take_add, List.replicate_zero, List.append_nil,
      List.append_assoc]
  · have h1 : data.drop a = [] := List.drop_eq_nil_of_le h
    have h2 : data.take a = data := List.take_of_length_le h
    have h3 : data.take (a + b) = data := List.take_of_length_le (by omega)
    have h4 : a - data.length + b = a + b - data.length := by omega
    rw [h1, h2, h3]
    simp only [List.take_nil, List.length_nil, Nat.sub_zero, List.nil_append,
      List.append_assoc, ← List.replicate_add]
    rw [h4]

theorem runReads_cons {σ : Type} [CodecInput σ] (s : σ) (n : Nat)
    (ns : List Nat) (bs : List Nat) (s' : σ)
    (h : CodecInput.read s n = .ok (bs, s')) :
    runReads s (n :: ns) =
      match runReads s' ns with
      | none => none
      | some (rest, sf) => some (bs ++ rest, sf) := by
  conv_lhs => rw [runReads]
  rw [h]

theorem unknownLenSource_read (data : List Nat) (n : Nat) :
    CodecInput.read (UnknownLenSource.mk data) n =
      if n ≤ data.length then
        .ok (data.take n, UnknownLenSource.mk (data.drop n))
      else .error () := rfl

theorem runReads_trailingZero (sizes data : List Nat) :
    runReads (TrailingZeroInput.mk data) sizes =
      some (padRead data sizes.sum,
        TrailingZeroInput.mk (data.drop sizes.sum)) := by
  induction sizes generalizing data with
  | nil => simp [runReads, padRead]
  | cons n ns ih =>
    rw [runReads_cons _ n ns _ _ (trailingZero_read_padRead data n),
      ih (data.drop n)]
    simp only [List.sum_cons, List.drop_drop, padRead_add]

theorem readByteLoop_unknownLen (data : List Nat) (n : Nat) :
    readByteLoop (UnknownLenSource.mk data) n =
      (data.take (min n data.length),
        UnknownLenSource.mk (data.drop (min n data.length))) := by
  induction n generalizing data with
  | zero => simp [readByteLoop]
  | succ n ih =>
    cases data with
    | nil => simp [readByteLoop, read_byte, unknownLenSource_read]
    | cons b bs =>
      have hrb : read_byte (UnknownLenSource.mk (b :: bs)) =
          .ok (b, UnknownLenSource.mk bs) := by
        simp [read_byte, unknownLenSource_read]
      simp only [readByteLoop, hrb, ih bs, List.length_cons,
        Nat.succ_min_succ, List.take_succ_cons, List.drop_succ_cons]

theorem appendZeros_slice_read (data : List Nat) (n : Nat) :
    CodecInput.read (AppendZerosInput.mk (SliceInput.mk data)) n =
      .ok (padRead data n,
        AppendZerosInput.mk (SliceInput.mk (data.drop n))) := by
  show AppendZerosInput.read (AppendZerosInput.mk (SliceInput.mk data)) n = _
  have hread : CodecInput.read (SliceInput.mk data) (min n data.length) =
      .ok (data.take (min n data.length),
        SliceInput.mk (data.drop (min n data.length))) := by
    rw [sliceInput_read, if_pos (Nat.min_le_right n data.length)]
  unfold AppendZerosInput.read
  simp only [hread, take_min_eq_take, drop_min_eq_drop]
  have h2 : n - min n data.length = n - data.length := by omega
  rw [h2]
  rfl

theorem appendZeros_unknownLen_read (data : List Nat) (n : Nat) :
    CodecInput.read (AppendZerosInput.mk (UnknownLenSource.mk data)) n =
      .ok (padRead data n,
        AppendZerosInput.mk (UnknownLenSource.mk (data.drop n))) := by
  show AppendZerosInput.read (AppendZerosInput.mk (UnknownLenSource.mk data)) n = _
  unfold AppendZerosInput.read
  simp only [readByteLoop_unknownLen, take_min_eq_take, drop_min_eq_drop,
    List.length_take]
  have h2 : n - min n data.length = n - data.length := by omega
  rw [h2]
  rfl

/-- Claim C7: reading any sequence of sizes from a `TrailingZeroInput` over
a finite slice succeeds and delivers exactly the slice's bytes in order
followed by zeros past its end, with remaining length always reported
unknown; and an `AppendZerosInput` over a finite source (whether its length
is known or unknown) forwards the source's real bytes and zero-fills the
remainder of any single read, also always reporting its remaining length as
unknown. -/
theorem C7_padding_adapters :
    (∀ (data sizes : List Nat),
      runReads (TrailingZeroInput.mk data) sizes =
        some (padRead data sizes.sum,
          TrailingZeroInput.mk (data.drop sizes.sum)))
    ∧ (∀ data : List Nat,
        CodecInput.remaining_len (TrailingZeroInput.mk data) = .ok none)
    ∧ (∀ (data : List Nat) (n : Nat),
        CodecInput.read (AppendZerosInput.mk (SliceInput.mk data)) n =
          .ok (padRead data n,
            AppendZerosInput.mk (SliceInput.mk (data.drop n))))
    ∧ (∀ (data : List Nat) (n : Nat),
        CodecInput.read (AppendZerosInput.mk (UnknownLenSource.mk data)) n =
          .ok (padRead data n,
            AppendZerosInput.mk (UnknownLenSource.mk (data.drop n))))
    ∧ (∀ (σ : Type) (_inst : CodecInput σ) (s : AppendZerosInput σ),
        CodecInput.remaining_len s = .ok none) :=
  ⟨fun data sizes => runReads_trailingZero sizes data,
    fun _ => rfl,
    appendZeros_slice_read,
    appendZeros_unknownLen_read,
    fun _ _ _ => rfl⟩

/-- Model of one signed extension (the `SignedExtension` trait's capability
surface): per-stage operations over account type `A`, call type `C`,
dispatch-info type `I`, additional-signed data `AS` and pre-dispatch carry
`P`.  The external `ValidTransaction` descriptor and
`TransactionValidityError` are opaque to the source, so they are the type
parameters `V` and `E`. -/
structure SignedExt (A C I V E AS P : Type) where
  additional_signed : Except E AS
  validate : A → C → I → Nat → Except E V
  pre_dispatch : A → C → I → Nat → Except E P
  validate_unsigned : C → I → Nat → Except E V
  pre_dispatch_unsigned : C → I → Nat → Except E P
  post_dispatch : P → I → Nat → Unit

/-- Default `validate` of the `SignedExtension` trait: succeed with the
default validity descriptor, ignoring every argument. -/
def default_validate {A C I V E : Type} (dflt : V) :
    A → C → I → Nat → Except E V :=
  fun _ _ _ _ => .ok dflt

/-- Default `pre_dispatch` of the trait: re-run `validate`, discard its
descriptor, return the default carry value on success and the error
otherwise. -/
def default_pre_dispatch {A C I V E P : Type}
    (validate : A → C → I → Nat → Except E V) (preDflt : P) :
    A → C → I → Nat → Except E P :=
  fun who call info len =>
    match validate who call info len with
    | .ok _ => .ok preDflt
    | .error e => .error e

/-- Default `validate_unsigned` of the trait: succeed with the default
validity descriptor. -/
def default_validate_unsigned {C I V E : Type} (dflt : V) :
    C → I → Nat → Except E V :=
  fun _ _ _ => .ok dflt

/-- Default `pre_dispatch_unsigned` of the trait: re-run
`validate_unsigned`, discard its descriptor and return the default carry. -/
def default_pre_dispatch_unsigned {C I V E P : Type}
    (vu : C → I → Nat → Except E V) (preDflt : P) :
    C → I → Nat → Except E P :=
  fun call info len =>
    match vu call info len with
    | .ok _ => .ok preDflt
    | .error e => .error e

/-- Default `post_dispatch` of the trait: do nothing. -/
def default_post_dispatch {I P : Type} : P → I → Nat → Unit :=
  fun _ _ _ => ()

/-- The bare `SignedExtension` impl for `()` — the empty extension chain —
with `AccountId = u64`, `Call = ()`, `DispatchInfo = ()`,
`AdditionalSigned = ()`, `Pre = ()`: only `additional_signed` is provided;
every other stage is the trait default. -/
def unitSignedExtension (V E : Type) (dflt : V) :
    SignedExt Nat Unit Unit V E Unit Unit where
  additional_signed := .ok ()
  validate := default_validate dflt
  pre_dispatch := default_pre_dispatch (default_validate dflt) ()
  validate_unsigned := default_validate_unsigned dflt
  pre_dispatch_unsigned :=
    default_pre_dispatch_unsigned (default_validate_unsigned dflt) ()
  post_dispatch := default_post_dispatch

/-- The `impl_for_tuples` composition of `SignedExtension` at arity 3:
additional-signed data and pre-dispatch carries are positional tuples built
left to right with `?`-style short-circuiting on the first member error;
`validate` and `validate_unsigned` fold `combine_with` over the members'
descriptors starting from the default descriptor; `post_dispatch` runs
every member's hook in order. -/
def tupleSignedExt3 {A C I V E AS1 AS2 AS3 P1 P2 P3 : Type}
    (dflt : V) (combine : V → V → V)
    (e1 : SignedExt A C I V E AS1 P1) (e2 : SignedExt A C I V E AS2 P2)
    (e3 : SignedExt A C I V E AS3 P3) :
    SignedExt A C I V E (AS1 × AS2 × AS3) (P1 × P2 × P3) where
  additional_signed :=
    match e1.additional_signed with
    | .error e => .error e
    | .ok a1 =>
      match e2.additional_signed with
      | .error e => .error e
      | .ok a2 =>
        match e3.additional_signed with
        | .error e => .error e
        | .ok a3 => .ok (a1, a2, a3)
  validate who call info len :=
    match e1.validate who call info len with
    | .error e => .error e
    | .ok r1 =>
      match e2.validate who call info len with
      | .error e => .error e
      | .ok r2 =>
        match e3.validate who call info len with
        | .error e => .error e
        | .ok r3 => .ok (combine (combine (combine dflt r1) r2) r3)
  pre_dispatch who call info len :=
    match e1.pre_dispatch who call info len with
    | .error e => .error e
    | .ok p1 =>
      match e2.pre_dispatch who call info len with
      | .error e => .error e
      | .ok p2 =>
        match e3.pre_dispatch who call info len with
        | .error e => .error e
        | .ok p3 => .ok (p1, p2, p3)
  validate_unsigned call info len :=
    match e1.validate_unsigned call info len with
    | .error e => .error e
    | .ok r1 =>
      match e2.validate_unsigned call info len with
      | .error e => .error e
      | .ok r2 =>
        match e3.validate_unsigned call info len with
        | .error e => .error e
        | .ok r3 => .ok (combine (combine (combine dflt r1) r2) r3)
  pre_dispatch_unsigned call info len :=
    match e1.pre_dispatch_unsigned call info len with
    | .error e => .error e
    | .ok p1 =>
      match e2.pre_dispatch_unsigned call info len with
      | .error e => .error e
      | .ok p2 =>
        match e3.pre_dispatch_unsigned call info len with
        | .error e => .error e
        | .ok p3 => .ok (p1, p2, p3)
  post_dispatch p info len :=
    let _ := e1.post_dispatch p.1 info len
    let _ := e2.post_dispatch p.2.1 info len
    let _ := e3.post_dispatch p.2.2 info len
    ()

/-- A signed extension whose stages return fixed results: a collaborator
for exercising the tuple composition. -/
def constSignedExt {A C I V E AS P : Type} (a : Except E AS)
    (v : Except E V) (p : Except E P) : SignedExt A C I V E AS P where
  additional_signed := a
  validate _ _ _ _ := v
  pre_dispatch _ _ _ _ := p
  validate_unsigned _ _ _ := v
  pre_dispatch_unsigned _ _ _ := p
  post_dispatch _ _ _ := ()

/-- Claim C2: the empty signed-extension chain (the `()` impl) trivially
succeeds every pipeline stage with unit data, and the trait-default stages
it inherits succeed for every account type and every call type. -/
theorem C2_empty_chain (V E : Type) (dflt : V) :
    ((unitSignedExtension V E dflt).additional_signed = .ok ()
      ∧ ∀ (who : Nat) (call : Unit) (info : Unit) (len : Nat),
          (unitSignedExtension V E dflt).validate who call info len = .ok dflt
          ∧ (unitSignedExtension V E dflt).pre_dispatch who call info len =
              .ok ()
          ∧ (unitSignedExtension V E dflt).validate_unsigned call info len =
              .ok dflt
          ∧ (unitSignedExtension V E dflt).pre_dispatch_unsigned call info
              len = .ok ()
          ∧ (unitSignedExtension V E dflt).post_dispatch () info len = ())
    ∧ ∀ (A C I : Type) (who : A) (call : C) (info : I) (len : Nat),
        default_validate (E := E) dflt who call info len = .ok dflt
        ∧ default_pre_dispatch (default_validate (E := E) dflt) () who call
            info len = .ok ()
        ∧ default_validate_unsigned (C := C) (I := I) (E := E) dflt call
            info len = .ok dflt
        ∧ default_pre_dispatch_unsigned
            (default_validate_unsigned (E := E) dflt) () call info len =
            .ok ()
        ∧ default_post_dispatch (I := I) (P := Unit) () info len = () :=
  ⟨⟨rfl, fun _ _ _ _ => ⟨rfl, rfl, rfl, rfl, rfl⟩⟩,
    fun _ _ _ _ _ _ _ => ⟨rfl, rfl, rfl, rfl, rfl⟩⟩

/-- Claim C3: in the arity-3 tuple composition, whenever a member's
validate (respectively additional_signed or pre_dispatch) errors and every
earlier member succeeds, the composed operation returns exactly that
member's error; members after the failing one are never evaluated — the
result is the same for every choice of the later members. -/
theorem C3_short_circuit {A C I V E AS1 AS2 AS3 P1 P2 P3 : Type}
    (dflt : V) (combine : V → V → V)
    (e1 : SignedExt A C I V E AS1 P1) (e2 : SignedExt A C I V E AS2 P2)
    (e3 : SignedExt A C I V E AS3 P3)
    (who : A) (call : C) (info : I) (len : Nat) (err : E) :
    ((e1.validate who call info len = .error err →
      ∀ (f2 : SignedExt A C I V E AS2 P2) (f3 : SignedExt A C I V E AS3 P3),
        (tupleSignedExt3 dflt combine e1 f2 f3).validate who call info len =
          .error err)
    ∧ (e1.additional_signed = .error err →
      ∀ (f2 : SignedExt A C I V E AS2 P2) (f3 : SignedExt A C I V E AS3 P3),
        (tupleSignedExt3 dflt combine e1 f2 f3).additional_signed =
          .error err)
    ∧ (e1.pre_dispatch who call info len = .error err →
      ∀ (f2 : SignedExt A C I V E AS2 P2) (f3 : SignedExt A C I V E AS3 P3),
        (tupleSignedExt3 dflt combine e1 f2 f3).pre_dispatch who call info
          len = .error err))
    ∧ (((∃ v1, e1.validate who call info len = .ok v1) →
      e2.validate who call info len = .error err →
      ∀ (f3 : SignedExt A C I V E AS3 P3),
        (tupleSignedExt3 dflt combine e1 e2 f3).validate who call info len =
          .error err)
    ∧ ((∃ a1, e1.additional_signed = .ok a1) →
      e2.additional_signed = .error err →
      ∀ (f3 : SignedExt A C I V E AS3 P3),
        (tupleSignedExt3 dflt combine e1 e2 f3).additional_signed =
          .error err)
    ∧ ((∃ p1, e1.pre_dispatch who call info len = .ok p1) →
      e2.pre_dispatch who call info len = .error err →
      ∀ (f3 : SignedExt A C I V E AS3 P3),
        (tupleSignedExt3 dflt combine e1 e2 f3).pre_dispatch who call info
          len = .error err))
    ∧ (((∃ v1, e1.validate who call info len = .ok v1) →
      (∃ v2, e2.validate who call info len = .ok v2) →
      e3.validate who call info len = .error err →
        (tupleSignedExt3 dflt combine e1 e2 e3).validate who call info len =
          .error err)
    ∧ ((∃ a1, e1.additional_signed = .ok a1) →
      (∃ a2, e2.additional_signed = .ok a2) →
      e3.additional_signed = .error err →
        (tupleSignedExt3 dflt combine e1 e2 e3).additional_signed =
          .error err)
    ∧ ((∃ p1, e1.pre_dispatch who call info len = .ok p1) →
      (∃ p2, e2.pre_dispatch who call info len = .ok p2) →
      e3.pre_dispatch who call info len = .error err →
        (tupleSignedExt3 dflt combine e1 e2 e3).pre_dispatch who call info
          len = .error err)) := by
  refine ⟨⟨?_, ?_, ?_⟩, ⟨?_, ?_, ?_⟩, ⟨?_, ?_, ?_⟩⟩
  · intro h f2 f3
    simp only [tupleSignedExt3, h]
  · intro h f2 f3
    simp only [tupleSignedExt3, h]
  · intro h f2 f3
    simp only [tupleSignedExt3, h]
  · rintro ⟨v1, hv1⟩ h f3
    simp only [tupleSignedExt3, hv1, h]
  · rintro ⟨a1, ha1⟩ h f3
    simp only [tupleSignedExt3, ha1, h]
  · rintro ⟨p1, hp1⟩ h f3
    simp only [tupleSignedExt3, hp1, h]
  · rintro ⟨v1, hv1⟩ ⟨v2, hv2⟩ h
    simp only [tupleSignedExt3, hv1, hv2, h]
  · rintro ⟨a1, ha1⟩ ⟨a2, ha2⟩ h
    simp only [tupleSignedExt3, ha1, ha2, h]
  · rintro ⟨p1, hp1⟩ ⟨p2, hp2⟩ h
    simp only [tupleSignedExt3, hp1, hp2, h]

/-- An always-succeeding concrete extension (additional data unit,
descriptor 1, carry unit). -/
def okExt : SignedExt Nat Unit Unit Nat Nat Unit Unit :=
  constSignedExt (.ok ()) (.ok 1) (.ok ())

/-- A concrete extension failing every stage with error 7. -/
def errExt : SignedExt Nat Unit Unit Nat Nat Unit Unit :=
  constSignedExt (.error 7) (.error 7) (.error 7)

/-- A concrete third extension whose stages all succeed. -/
def lastExt : SignedExt Nat Unit Unit Nat Nat Unit Unit :=
  constSignedExt (.ok ()) (.ok 3) (.ok ())

/-- Witness for C3: with E1 succeeding everywhere, E2 failing with error 7
and an arbitrary E3, the composed validate, additional_signed and
pre_dispatch all return exactly error 7. -/
theorem C3_short_circuit_witness :
    ((tupleSignedExt3 0 Nat.add okExt errExt lastExt).validate 0 () () 0 =
      .error 7)
    ∧ ((tupleSignedExt3 0 Nat.add okExt errExt lastExt).additional_signed =
      .error 7)
    ∧ ((tupleSignedExt3 0 Nat.add okExt errExt lastExt).pre_dispatch
        0 () () 0 = .error 7) :=
  ⟨((C3_short_circuit 0 Nat.add okExt errExt lastExt 0 () () 0 7).2.1).1
      ⟨1, rfl⟩ rfl lastExt,
    ((C3_short_circuit 0 Nat.add okExt errExt lastExt 0 () () 0 7).2.1).2.1
      ⟨(), rfl⟩ rfl lastExt,
    ((C3_short_circuit 0 Nat.add okExt errExt lastExt 0 () () 0 7).2.1).2.2
      ⟨(), rfl⟩ rfl lastExt⟩

/-- Claim C8: the trait's default `pre_dispatch` returns ok with the
default carry exactly when `validate` on the same arguments succeeds, and
returns `validate`'s error exactly when it fails — it performs precisely
the checks `validate` performs. -/
theorem C8_default_pre_dispatch {A C I V E P : Type}
    (validate : A → C → I → Nat → Except E V) (preDflt : P)
    (who : A) (call : C) (info : I) (len : Nat) :
    (default_pre_dispatch validate preDflt who call info len = .ok preDflt ↔
      ∃ v, validate who call info len = .ok v)
    ∧ ∀ e : E,
      default_pre_dispatch validate preDflt who call info len = .error e ↔
        validate who call info len = .error e := by
  cases hv : validate who call info len with
  | ok v =>
    refine ⟨⟨fun _ => ⟨v, rfl⟩, fun _ => ?_⟩,
      fun e => ⟨fun h => ?_, fun h => ?_⟩⟩
    · simp [default_pre_dispatch, hv]
    · simp [default_pre_dispatch, hv] at h
    · exact absurd h (by simp)
  | error e2 =>
    refine ⟨⟨fun h => ?_, fun hex => ?_⟩,
      fun e => ⟨fun h => ?_, fun h => ?_⟩⟩
    · simp [default_pre_dispatch, hv] at h
    · rcases hex with ⟨v, hv2⟩
      exact absurd hv2 (by simp)
    · simp only [default_pre_dispatch, hv, Except.error.injEq] at h
      rw [h]
    · simp only [Except.error.injEq] at h
      simp [default_pre_dispatch, hv, h]

/-- Witness for C8: at a concrete always-valid extension the default
pre_dispatch succeeds with the default carry. -/
theorem C8_default_pre_dispatch_witness :
    default_pre_dispatch (fun _ _ _ _ => (.ok 5 : Except Nat Nat))
      (0 : Nat) (0 : Nat) (0 : Nat) (0 : Nat) 0 = .ok 0 :=
  (C8_default_pre_dispatch (fun _ _ _ _ => (.ok 5 : Except Nat Nat))
    0 0 0 0 0).1.mpr ⟨5, rfl⟩

/-- The recoverable ECDSA `Verify` impl: recover a compressed public key
from the signature and the blake2_256 hash of the message; the signature is
valid iff recovery succeeds and the recovered key's bytes equal the claimed
signer's key bytes.  The recovery primitive and the hash are external
(`sp_io`) and passed as functions; `R` is the recovery error type. -/
def ecdsa_verify {R : Type}
    (recover : List Nat → List Nat → Except R (List Nat))
    (blake2_256 : List Nat → List Nat) (sig msg signer : List Nat) : Bool :=
  match recover sig (blake2_256 msg) with
  | .ok pubkey => signer == pubkey
  | .error _ => false

/-- Claim C4: ECDSA verification returns true iff public-key recovery from
the signature and the blake2_256 message hash succeeds with a key
byte-equal to the claimed signer's, and any recovery failure yields the
boolean false — never an error. -/
theorem C4_ecdsa_verify {R : Type}
    (recover : List Nat → List Nat → Except R (List Nat))
    (blake2_256 : List Nat → List Nat) (sig msg signer : List Nat) :
    (ecdsa_verify recover blake2_256 sig msg signer = true ↔
      ∃ pubkey, recover sig (blake2_256 msg) = .ok pubkey ∧ signer = pubkey)
    ∧ ∀ e : R, recover sig (blake2_256 msg) = .error e →
        ecdsa_verify recover blake2_256 sig msg signer = false := by
  constructor
  · cases hr : recover sig (blake2_256 msg) with
    | ok pk =>
      constructor
      · intro h
        refine ⟨pk, rfl, ?_⟩
        simpa [ecdsa_verify, hr] using h
      · rintro ⟨pk2, hpk, he⟩
        simp only [Except.ok.injEq] at hpk
        simp [ecdsa_verify, hr, he, hpk]
    | error e =>
      constructor
      · intro h
        simp [ecdsa_verify, hr] at h
      · rintro ⟨pk2, hpk, he⟩
        exact absurd hpk (by simp)
  · intro e he
    simp [ecdsa_verify, he]

/-- Witness for C4: a recovery returning key bytes `[1, 2]` verifies the
claimed signer `[1, 2]`, and a failing recovery verifies as false. -/
theorem C4_ecdsa_verify_witness :
    ecdsa_verify (R := Unit) (fun _ _ => .ok [1, 2]) (fun m => m)
      [0] [5] [1, 2] = true
    ∧ ecdsa_verify (R := Unit) (fun _ _ => .error ()) (fun m => m)
      [0] [5] [1, 2] = false :=
  ⟨(C4_ecdsa_verify _ _ _ _ _).1.mpr ⟨[1, 2], rfl, rfl⟩,
    (C4_ecdsa_verify _ _ _ _ _).2 () rfl⟩
